import Mathlib

/-!
Verification of the order-book synchronizer and order-submission front end
of the Injective spot-trading UI (source: src/App.tsx).

Modelling conventions:
* JavaScript numeric values are modelled under exact decimal semantics as
  scaled decimals: a `DecNum` with mantissa m and scale e denotes m / 10^e.
  All operations the source performs on those values (addition, halving,
  comparison, rounding to a fixed number of decimals) are closed over this
  representation and are computed with integer arithmetic, so every
  definition is executable.  `DecNum.toRat` interprets a value in ℚ and is
  used to state the specification-level properties.
* Decimal strings carried in order-book levels are modelled by their parsed
  numeric value (the source parses them with parseFloat at every use).
* JavaScript truthiness of the relevant values is modelled explicitly:
  a missing object field is `none`, the absent/zero timestamp is `0`
  (both are falsy in the source and are treated identically by it).
-/

/-- Exact decimal number: `mant / 10 ^ exp`.  Model of a JavaScript number
under exact decimal semantics (see module docstring). -/
structure DecNum where
  mant : Int
  exp : Nat
deriving Repr, DecidableEq

namespace DecNum

/-- The rational value denoted by a `DecNum`. -/
def toRat (a : DecNum) : ℚ := (a.mant : ℚ) / (10 : ℚ) ^ a.exp

/-- Zero. -/
def zero : DecNum := ⟨0, 0⟩

/-- Exact addition (common-denominator form). -/
def add (a b : DecNum) : DecNum :=
  ⟨a.mant * 10 ^ b.exp + b.mant * 10 ^ a.exp, a.exp + b.exp⟩

/-- Exact division by two: `m / 10^e / 2 = 5m / 10^(e+1)`. -/
def half (a : DecNum) : DecNum := ⟨a.mant * 5, a.exp + 1⟩

/-- Decidable less-than, by cross multiplication (denominators are powers of
ten, hence positive, so no sign condition is needed). -/
def blt (a b : DecNum) : Bool := a.mant * 10 ^ b.exp < b.mant * 10 ^ a.exp

/-- Decidable less-or-equal, by cross multiplication. -/
def ble (a b : DecNum) : Bool := a.mant * 10 ^ b.exp ≤ b.mant * 10 ^ a.exp

/-- Decidable semantic equality, by cross multiplication. -/
def beq (a b : DecNum) : Bool := a.mant * 10 ^ b.exp == b.mant * 10 ^ a.exp

end DecNum

/-! ### Decimal digit strings

Kernel-computable decimal rendering of natural numbers, proved equal to
Mathlib's `Nat.digits 10` so its lemmas transfer.  This models the
JavaScript number-to-string conversion for non-negative integers. -/

/-- Little-endian decimal digits, structural recursion on a fuel argument so
that concrete evaluation reduces in the kernel. -/
def decDigitsAux : Nat → Nat → List Nat
  | 0, _ => []
  | fuel + 1, n => if n = 0 then [] else n % 10 :: decDigitsAux fuel (n / 10)

/-- Little-endian decimal digits of a natural number. -/
def decDigits (n : Nat) : List Nat := decDigitsAux n n

/-- The character for a single decimal digit. -/
def digitChar (d : Nat) : Char := Char.ofNat (48 + d)

/-- Decimal rendering of a natural number as a character list (most
significant digit first). -/
def natDecL (n : Nat) : List Char :=
  if n = 0 then ['0'] else ((decDigits n).reverse.map digitChar)

/-- Decimal rendering of a natural number as a string; model of the
JavaScript conversion of a non-negative integer to a string. -/
def natDec (n : Nat) : String := ⟨natDecL n⟩

/-! ### SmallValueFormatter (source: formatSmallPrice, App.tsx lines 98-132) -/

/-- Rounding half-up of `q * 10 ^ d` to an integer, as ECMA-262 prescribes for
Number.prototype.toFixed on non-negative values:
`(2 m 10^d + 10^e) / (2 · 10^e)` in integers.  Negative values are outside the
modelled domain and clamp to 0. -/
def roundHalfUpNat (d : Nat) (q : DecNum) : Nat :=
  (2 * q.mant * 10 ^ d + 10 ^ q.exp).toNat / (2 * 10 ^ q.exp)

/-- Zero-pad a digit string on the left to width `w`. -/
def padZeros (w : Nat) (s : List Char) : List Char :=
  List.replicate (w - s.length) '0' ++ s

/-- Model of Number.prototype.toFixed(d) under exact decimal semantics. -/
def decToFixed (d : Nat) (q : DecNum) : String :=
  let n := roundHalfUpNat d q
  if d = 0 then natDec n
  else ⟨natDecL (n / 10 ^ d) ++ '.' :: padZeros d (natDecL (n % 10 ^ d))⟩

/-- Model of `.replace(/\.?0+$/, '')`: strip trailing zeros, and the decimal
point when it becomes trailing. -/
def stripTrailingZerosL (r0 : List Char) : List Char :=
  let r := r0.reverse
  if (r.takeWhile (fun c => c == '0')).length = 0 then r0
  else
    let r1 := r.dropWhile (fun c => c == '0')
    if r1.head? = some '.' then r1.tail.reverse else r1.reverse

/-- String-level wrapper of `stripTrailingZerosL`. -/
def stripTrailingZeros (s : String) : String := ⟨stripTrailingZerosL s.data⟩

/-- Model of `priceStr.match(/^0\.0+/)`: on success returns the number of
zeros after the leading "0." (the match length minus 2). -/
def leadingZeroMatchL : List Char → Option Nat
  | '0' :: '.' :: rest =>
    let k := (rest.takeWhile (fun c => c == '0')).length
    if k = 0 then none else some k
  | _ => none

/-- String-level wrapper of `leadingZeroMatchL`. -/
def leadingZeroMatch (s : String) : Option Nat := leadingZeroMatchL s.data

/-- The subscript digit characters used by the source. -/
def subscriptDigits : List Char := ['₀', '₁', '₂', '₃', '₄', '₅', '₆', '₇', '₈', '₉']

/-- Model of `n.toString().split('').map(d => subscripts[parseInt(d)]).join('')`. -/
def subscriptStr (n : Nat) : String :=
  ⟨(natDecL n).map (fun c => subscriptDigits.getD (c.toNat - 48) '₀')⟩

/-- Count of factors of ten in `n` (length of the little-endian zero run). -/
def trailingZeroCount (n : Nat) : Nat :=
  ((decDigits n).takeWhile (fun d => d == 0)).length

/-- Model of the default JavaScript number-to-string conversion at the
external-interface boundary, under exact decimal semantics.  The scientific
branch (positive magnitudes whose value is below 1e-6) is the only one
reached from formatSmallPrice; the remaining branch is a total plain
rendering. -/
def jsNumberToString (q : DecNum) : String :=
  if q.mant = 0 then "0"
  else
    let sign : String := if q.mant < 0 then "-" else ""
    let m := q.mant.natAbs
    let t := trailingZeroCount m
    let m1 := m / 10 ^ t
    let ds := natDecL m1
    let sci : Int := ((q.exp : Int) - (t : Int)) - ((ds.length : Int) - 1)
    if 0 < sci then
      match ds with
      | [] => "0"
      | c :: rest =>
        sign ++ ⟨[c]⟩ ++ (if rest.length = 0 then "" else "." ++ (⟨rest⟩ : String)) ++
          "e-" ++ natDec sci.toNat
    else
      sign ++ decToFixed q.exp ⟨(m : Int), q.exp⟩

/-- Translation of formatSmallPrice (App.tsx lines 98-132). -/
def formatSmallPrice (price : DecNum) (quoteSymbol : String) : String :=
  if price.beq DecNum.zero then quoteSymbol ++ "0.00"
  else if DecNum.ble ⟨1, 4⟩ price then decToFixed 4 price
  else
    let priceStr := stripTrailingZeros (decToFixed 20 price)
    match leadingZeroMatch priceStr with
    | none => jsNumberToString price
    | some leadingZeros =>
      if leadingZeros > 9 then
        let adjustedZeros := min leadingZeros 9
        let startPos := (leadingZeros + 2) + (leadingZeros - adjustedZeros)
        let significantDigits : List Char := (priceStr.data.drop startPos).take 4
        "0.0" ++ subscriptStr adjustedZeros ++ (⟨significantDigits⟩ : String)
      else
        let significantDigits : List Char := (priceStr.data.drop (leadingZeros + 2)).take 4
        "0.0" ++ subscriptStr leadingZeros ++ (⟨significantDigits⟩ : String)

/-- toFixed with its ECMA-262 failure mode made explicit: it throws a
RangeError when the digit count is outside [0, 100]. -/
def decToFixedChecked (d : Nat) (q : DecNum) : Option String :=
  if d ≤ 100 then some (decToFixed d q) else none

/-- formatSmallPrice with every fallible primitive on its path given its
explicit failure mode (`none` = a thrown exception). -/
def formatSmallPriceChecked (price : DecNum) (quoteSymbol : String) : Option String :=
  if price.beq DecNum.zero then some (quoteSymbol ++ "0.00")
  else if DecNum.ble ⟨1, 4⟩ price then decToFixedChecked 4 price
  else
    match decToFixedChecked 20 price with
    | none => none
    | some s0 =>
      let priceStr := stripTrailingZeros s0
      match leadingZeroMatch priceStr with
      | none => some (jsNumberToString price)
      | some leadingZeros =>
        if leadingZeros > 9 then
          let adjustedZeros := min leadingZeros 9
          let startPos := (leadingZeros + 2) + (leadingZeros - adjustedZeros)
          let significantDigits : List Char := (priceStr.data.drop startPos).take 4
          some ("0.0" ++ subscriptStr adjustedZeros ++ (⟨significantDigits⟩ : String))
        else
          let significantDigits : List Char := (priceStr.data.drop (leadingZeros + 2)).take 4
          some ("0.0" ++ subscriptStr leadingZeros ++ (⟨significantDigits⟩ : String))

/-! ### parseFloat model -/

/-- Decimal digit test. -/
def isDigitChar (c : Char) : Bool := decide ('0' ≤ c) && decide (c ≤ '9')

/-- Numeric value of a digit character. -/
def digitVal (c : Char) : Nat := c.toNat - 48

/-- Value of a digit string. -/
def digitsVal (l : List Char) : Nat := l.foldl (fun a c => 10 * a + digitVal c) 0

/-- Model of JavaScript parseFloat on plain decimal notation (optional sign,
integer digits, optional fraction); `none` models NaN.  Exponent notation and
Infinity are outside the modelled domain. -/
def parseFloatDec (s : String) : Option DecNum :=
  let cs := s.data.dropWhile (fun c => c == ' ')
  let signNeg : Bool := match cs with | '-' :: _ => true | _ => false
  let cs1 := match cs with | '-' :: t => t | '+' :: t => t | _ => cs
  let intPart := cs1.takeWhile isDigitChar
  let rest := cs1.dropWhile isDigitChar
  let fracPart := match rest with | '.' :: t => t.takeWhile isDigitChar | _ => []
  if intPart.length = 0 ∧ fracPart.length = 0 then none
  else
    let mag : Nat := digitsVal intPart * 10 ^ fracPart.length + digitsVal fracPart
    some ⟨if signNeg then -(mag : Int) else (mag : Int), fracPart.length⟩

/-! ### Order-book synchronizer (source: processOrderbookData, App.tsx
lines 256-404)

Raw payloads are JSON-like values.  A level object carries price, quantity
and timestamp fields; the source reads exactly these three.  A missing or
zero timestamp is modelled as 0 (both are falsy and the source treats them
identically in `order.timestamp || Date.now()`). -/

/-- An order-book level as stored (and as received: the source reads the same
three fields off raw level objects).  Prices and quantities are the parsed
numeric values of the decimal strings carried by the venue. -/
structure OrderBookEntry where
  price : DecNum
  quantity : DecNum
  timestamp : Nat
deriving Repr, DecidableEq

/-- JSON-like shape of an incoming order-book payload: null/undefined, an
object (with the three fields the source ever reads: an optional nested
orderbook, optional buys, optional sells; a field that is absent or null is
`none`), or an array. -/
inductive RawData where
  | nullVal : RawData
  | obj (orderbook : Option RawData) (buys : Option (List OrderBookEntry))
      (sells : Option (List OrderBookEntry)) : RawData
  | arr (elems : List RawData) : RawData

/-- JavaScript truthiness of a modelled raw value: objects and arrays are
truthy, null/undefined is falsy. -/
def RawData.truthy : RawData → Bool
  | .nullVal => false
  | _ => true

/-- The buys field of an object (undefined on anything else). -/
def RawData.buysField : RawData → Option (List OrderBookEntry)
  | .obj _ b _ => b
  | _ => none

/-- The sells field of an object (undefined on anything else). -/
def RawData.sellsField : RawData → Option (List OrderBookEntry)
  | .obj _ _ s => s
  | _ => none

/-- The orderbook field of an object (undefined on anything else). -/
def RawData.orderbookField : RawData → Option RawData
  | .obj ob _ _ => ob
  | _ => none

/-- Model of the truthiness test `x?.orderbook`. -/
def nestedBook (d : RawData) : Option RawData :=
  match d.orderbookField with
  | some inner => if inner.truthy then some inner else none
  | none => none

/-- Shape dispatch of processOrderbookData (App.tsx lines 272-288): a truthy
`orderbooks.orderbook`, else a non-empty array whose first element has a
truthy orderbook field, else the input itself (the source's third branch,
testing buys/sells, and its final else branch both assign the input). -/
def extractOrderbook (orderbooks : RawData) : RawData :=
  match nestedBook orderbooks with
  | some inner => inner
  | none =>
    match orderbooks with
    | RawData.arr (first :: _) =>
      match nestedBook first with
      | some inner => inner
      | none => orderbooks
    | _ => orderbooks

/-- Model of the guard `orderbook && (orderbook.buys || orderbook.sells)`
(a present buys/sells field is an array, and arrays are truthy even when
empty). -/
def hasBookContent (orderbook : RawData) : Bool :=
  orderbook.truthy && (orderbook.buysField.isSome || orderbook.sellsField.isSome)

/-- The order-book state owned by the synchronizer. -/
structure BookState where
  buyOrders : List OrderBookEntry
  sellOrders : List OrderBookEntry
  currentPrice : DecNum
  orderbookLoading : Bool
deriving Repr, DecidableEq

/-- Initial state of the corresponding useState hooks. -/
def initialBookState : BookState := ⟨[], [], DecNum.zero, true⟩

/-- Model of `order => {price, quantity, timestamp: order.timestamp || Date.now()}`. -/
def processLevel (now : Nat) (o : OrderBookEntry) : OrderBookEntry :=
  ⟨o.price, o.quantity, if o.timestamp == 0 then now else o.timestamp⟩

/-- The book replacement and reference-price derivation of
processOrderbookData (App.tsx lines 317-339): the processed sides replace
the book wholesale, and the reference price becomes the mean of best bid and
best ask, or the sole present side's best price, or stays as it was. -/
def deriveBookState (processedBuyOrders processedSellOrders : List OrderBookEntry)
    (prevPrice : DecNum) : BookState :=
  match processedBuyOrders.head?, processedSellOrders.head? with
  | some bb, some ba =>
    ⟨processedBuyOrders, processedSellOrders, DecNum.half (DecNum.add bb.price ba.price), false⟩
  | some bb, none =>
    ⟨processedBuyOrders, processedSellOrders, bb.price, false⟩
  | none, some ba =>
    ⟨processedBuyOrders, processedSellOrders, ba.price, false⟩
  | none, none =>
    ⟨processedBuyOrders, processedSellOrders, prevPrice, false⟩

/-- Translation of processOrderbookData (App.tsx lines 270-355), continued:
the shape is normalized, each present side truncated to its first 10 levels
and mapped through `processLevel`, and the state replaced via
`deriveBookState`. -/
def processOrderbookData (now : Nat) (orderbooks : RawData) (s : BookState) : BookState :=
  let orderbook := extractOrderbook orderbooks
  if hasBookContent orderbook then
    deriveBookState (((orderbook.buysField.getD []).take 10).map (processLevel now))
      (((orderbook.sellsField.getD []).take 10).map (processLevel now)) s.currentPrice
  else
    ⟨s.buyOrders, s.sellOrders, s.currentPrice, false⟩

/-! ### Order submission (source: handlePlaceOrder, App.tsx lines 578-717) -/

/-- The two order kinds. -/
inductive OrderType where
  | market
  | limit
deriving Repr, DecidableEq

/-- The fields of a market the modelled code path reads. -/
structure TradingPair where
  marketId : String
  ticker : String
deriving Repr, DecidableEq

/-- The app state read by handlePlaceOrder up to the scaling step. -/
structure AppState where
  isConnected : Bool
  injectiveAddresses : List String
  tradingPairs : List TradingPair
  selectedPair : String
  orderType : OrderType
  price : String
  quantity : String
  currentPrice : DecNum
deriving Repr, DecidableEq

/-- Translation of getCurrentPairData (App.tsx lines 406-411):
`tradingPairs.find(ticker match) || tradingPairs[0]`. -/
def getCurrentPairData (s : AppState) : Option TradingPair :=
  match s.tradingPairs.find? (fun p => p.ticker == s.selectedPair) with
  | some p => some p
  | none => s.tradingPairs.head?

/-- Source error message for a missing wallet connection. -/
def walletErrorMsg : String := "Please connect your wallet first"

/-- Source error message for a missing market. -/
def marketErrorMsg : String := "Please select a market first"

/-- Source error message for a bad limit price. -/
def limitPriceErrorMsg : String := "Please enter a valid price for limit order"

/-- Source error message for an unavailable market price. -/
def marketPriceErrorMsg : String :=
  "Market price not available yet. Please wait for orderbook to load."

/-- Source message of the (unreachable) inner market-price throw. -/
def invalidMarketPriceMsg (p : DecNum) : String :=
  "Invalid market price: " ++ jsNumberToString p ++ ". Orderbook may not be loaded."

/-- Outcome of a submission attempt, up to the decision to scale:
`silentReturn` is the bare `return` on an empty quantity (no error is
reported); `errorSet msg` is a setOrderError call followed by return;
`proceedToScaling p q` records that the pipeline reached the price/quantity
conversion step, with the values it converts. -/
inductive PlaceOrderResult where
  | silentReturn
  | errorSet (msg : String)
  | proceedToScaling (priceUsed : Option DecNum) (qty : Option DecNum)
deriving Repr, DecidableEq

/-- The limit-price rejection condition of the source
(`!price || parseFloat(price) <= 0`): an empty price string, or a parsed
value that is not positive.  An unparsable price is NaN, and `NaN <= 0` is
false, so it is not rejected here. -/
def limitPriceRejected (price : String) : Bool :=
  (price == "") ||
    (match parseFloatDec price with
     | some v => DecNum.ble v DecNum.zero
     | none => false)

/-- Translation of the validation and dispatch prefix of handlePlaceOrder
(App.tsx lines 578-717), cut at the point where the scaling conversions are
invoked. -/
def handlePlaceOrder (s : AppState) : PlaceOrderResult :=
  if s.quantity = "" then PlaceOrderResult.silentReturn
  else if (!s.isConnected) || (s.injectiveAddresses.length == 0) then
    PlaceOrderResult.errorSet walletErrorMsg
  else
    match getCurrentPairData s with
    | none => PlaceOrderResult.errorSet marketErrorMsg
    | some _ =>
      match s.orderType with
      | OrderType.limit =>
        if limitPriceRejected s.price then
          PlaceOrderResult.errorSet limitPriceErrorMsg
        else
          PlaceOrderResult.proceedToScaling (parseFloatDec s.price) (parseFloatDec s.quantity)
      | OrderType.market =>
        if DecNum.ble s.currentPrice DecNum.zero then
          PlaceOrderResult.errorSet marketPriceErrorMsg
        else if DecNum.ble s.currentPrice DecNum.zero then
          -- dead re-check inside the try block (the thrown Error is caught
          -- and reported through setOrderError)
          PlaceOrderResult.errorSet (invalidMarketPriceMsg s.currentPrice)
        else
          PlaceOrderResult.proceedToScaling (some s.currentPrice) (parseFloatDec s.quantity)

/-! ### Sub-account derivation (App.tsx lines 643-647) -/

/-- Translation of
`subaccountId = ethereumAddress + "0".repeat(23) + subaccountIndex`. -/
def deriveSubaccountId (ethereumAddress : String) (subaccountIndex : Nat) : String :=
  ethereumAddress ++ (⟨List.replicate 23 '0'⟩ : String) ++ natDec subaccountIndex

/-! ### Stream lifecycle (App.tsx lines 375-404) -/

/-- Modelled from the spec: the order-book source collaborator of §6
(`subscribe(marketId, onUpdate) -> Handle`, `unsubscribe(Handle)`), joined
with the effect's local state.  A venue-side subscription keeps invoking its
callback until `unsubscribe` is called on its handle; `activeSubs` lists the
market ids with a registered callback, `streamRef` is the component's ref,
and `processedUpdates` logs the market ids whose updates reached
processOrderbookData. -/
structure StreamSyncState where
  activeSubs : List String
  streamRef : Option String
  processedUpdates : List String
deriving Repr, DecidableEq

/-- Events of the stream lifecycle: the effect body running for a market,
React running the effect's cleanup, and the venue emitting an update. -/
inductive StreamEvent where
  | effectRun (marketId : String)
  | effectCleanup
  | venueUpdate (marketId : String)
deriving Repr, DecidableEq

/-- One lifecycle step.  The cleanup translates the source exactly: it only
clears the ref (`streamRef.current = null`) and never calls unsubscribe, so
the venue-side registration persists. -/
def streamStep (s : StreamSyncState) (e : StreamEvent) : StreamSyncState :=
  match e with
  | StreamEvent.effectRun m => ⟨m :: s.activeSubs, some m, s.processedUpdates⟩
  | StreamEvent.effectCleanup =>
    match s.streamRef with
    | some _ => ⟨s.activeSubs, none, s.processedUpdates⟩
    | none => s
  | StreamEvent.venueUpdate m =>
    if s.activeSubs.contains m then ⟨s.activeSubs, s.streamRef, s.processedUpdates ++ [m]⟩
    else s

/-- Run a sequence of lifecycle events from the initial state. -/
def streamRun (events : List StreamEvent) : StreamSyncState :=
  events.foldl streamStep ⟨[], none, []⟩

/-! ### Statement-level predicates and concrete example inputs -/

/-- Bid levels correctly ordered: non-increasing prices (descending). -/
def bidsSortedDesc (l : List OrderBookEntry) : Prop :=
  l.Pairwise (fun a b => DecNum.toRat b.price ≤ DecNum.toRat a.price)

/-- Ask levels correctly ordered: non-decreasing prices (ascending). -/
def asksSortedAsc (l : List OrderBookEntry) : Prop :=
  l.Pairwise (fun a b => DecNum.toRat a.price ≤ DecNum.toRat b.price)

/-- Whether a raw payload matches one of the two wrapper shapes of the
normalization dispatch (a truthy nested orderbook field, or a non-empty array
whose first element has one). -/
def hasWrappedBook (d : RawData) : Bool :=
  (nestedBook d).isSome ||
    (match d with
     | RawData.arr (first :: _) => (nestedBook first).isSome
     | _ => false)

/-- A concrete flat book update with one level per side (bid 4, ask 6). -/
def exBookUpdate : RawData :=
  RawData.obj none (some [⟨⟨4, 0⟩, ⟨1, 0⟩, 7⟩]) (some [⟨⟨6, 0⟩, ⟨2, 0⟩, 7⟩])

/-- A concrete update whose sides are present but empty arrays. -/
def exEmptySidesUpdate : RawData := RawData.obj none (some []) (some [])

/-- Book state after processing `exBookUpdate` from the initial state:
one level per side, reference price 5. -/
def exState1 : BookState := processOrderbookData 5 exBookUpdate initialBookState

/-- Book state after the empty-sides update follows: both sides empty while
the previously derived reference price is retained. -/
def exState2 : BookState := processOrderbookData 6 exEmptySidesUpdate exState1

/-- A concrete update whose buys side is not sorted descending (1 before 5). -/
def exUnsortedUpdate : RawData :=
  RawData.obj none (some [⟨⟨1, 0⟩, ⟨1, 0⟩, 7⟩, ⟨⟨5, 0⟩, ⟨1, 0⟩, 7⟩]) none

/-- A concrete app state: connected wallet, one market, market order with
quantity 1, against the stale price of `exState2`. -/
def exMarketOrderState : AppState :=
  ⟨true, ["inj1addr"], [⟨"0xmarket", "INJ/USDT"⟩], "INJ/USDT", OrderType.market, "", "1",
    exState2.currentPrice⟩

/-- A concrete app state whose quantity is empty while the wallet is also
disconnected (both the claimed first check and the actual first check fail). -/
def exC2State : AppState :=
  ⟨false, [], [], "", OrderType.limit, "", "", DecNum.zero⟩

/-! ## Helper lemmas -/

namespace DecNum

theorem toRat_zero : toRat zero = 0 := by
  simp [toRat, zero]

theorem pow_ten_pos (e : Nat) : (0 : ℚ) < (10 : ℚ) ^ e := by positivity

theorem blt_iff (a b : DecNum) : blt a b = true ↔ toRat a < toRat b := by
  rw [blt, toRat, toRat, div_lt_div_iff₀ (pow_ten_pos a.exp) (pow_ten_pos b.exp)]
  rw [decide_eq_true_eq]
  constructor
  · intro h
    exact_mod_cast h
  · intro h
    exact_mod_cast h

theorem ble_iff (a b : DecNum) : ble a b = true ↔ toRat a ≤ toRat b := by
  rw [ble, toRat, toRat, div_le_div_iff₀ (pow_ten_pos a.exp) (pow_ten_pos b.exp)]
  rw [decide_eq_true_eq]
  constructor
  · intro h
    exact_mod_cast h
  · intro h
    exact_mod_cast h

theorem beq_iff (a b : DecNum) : beq a b = true ↔ toRat a = toRat b := by
  rw [beq, toRat, toRat, div_eq_div_iff (ne_of_gt (pow_ten_pos a.exp)) (ne_of_gt (pow_ten_pos b.exp))]
  rw [beq_iff_eq]
  constructor
  · intro h
    exact_mod_cast h
  · intro h
    exact_mod_cast h

theorem toRat_add (a b : DecNum) : toRat (add a b) = toRat a + toRat b := by
  have ha := ne_of_gt (pow_ten_pos a.exp)
  have hb := ne_of_gt (pow_ten_pos b.exp)
  rw [add, toRat, toRat, toRat]
  push_cast
  rw [pow_add]
  field_simp

theorem toRat_half (a : DecNum) : toRat (half a) = toRat a / 2 := by
  have ha := ne_of_gt (pow_ten_pos a.exp)
  rw [half, toRat, toRat]
  push_cast
  rw [pow_succ]
  field_simp
  ring

end DecNum

theorem decDigitsAux_eq (fuel n : Nat) (h : n ≤ fuel) :
    decDigitsAux fuel n = Nat.digits 10 n := by
  induction fuel generalizing n with
  | zero =>
    have hn : n = 0 := Nat.le_zero.mp h
    subst hn
    simp [decDigitsAux]
  | succ f ih =>
    by_cases hn : n = 0
    · subst hn
      simp [decDigitsAux]
    · rw [decDigitsAux, if_neg hn]
      rw [Nat.digits_def' (by norm_num : 1 < 10) (Nat.pos_of_ne_zero hn)]
      rw [ih (n / 10) ?_]
      have h1 : n / 10 < n := Nat.div_lt_self (Nat.pos_of_ne_zero hn) (by norm_num)
      omega

theorem decDigits_eq (n : Nat) : decDigits n = Nat.digits 10 n :=
  decDigitsAux_eq n n le_rfl

theorem digitChar_inj_aux : ∀ a < 10, ∀ b < 10, digitChar a = digitChar b → a = b := by
  decide

theorem digitChar_inj {a b : Nat} (ha : a < 10) (hb : b < 10)
    (h : digitChar a = digitChar b) : a = b :=
  digitChar_inj_aux a ha b hb h

theorem digitChar_lt_ten_eq_zero_iff {a : Nat} (ha : a < 10) :
    digitChar a = '0' ↔ a = 0 := by
  constructor
  · intro h
    have h0 : digitChar 0 = '0' := by decide
    exact digitChar_inj ha (by norm_num) (h.trans h0.symm)
  · intro h
    subst h
    decide

theorem natDecL_ne_nil (n : Nat) : natDecL n ≠ [] := by
  rw [natDecL]
  by_cases h : n = 0
  · simp [h]
  · rw [if_neg h]
    have : decDigits n ≠ [] := by
      rw [decDigits_eq]
      exact Nat.digits_ne_nil_iff_ne_zero.mpr h
    simp [this]

theorem natDec_injective : Function.Injective natDec := by
  intro a b hab
  have h : natDecL a = natDecL b := congrArg String.data hab
  by_cases ha : a = 0 <;> by_cases hb : b = 0
  · omega
  · exfalso
    rw [natDecL, natDecL, if_pos ha, if_neg hb] at h
    have hnil : Nat.digits 10 b ≠ [] := Nat.digits_ne_nil_iff_ne_zero.mpr hb
    have hlast := Nat.getLast_digit_ne_zero 10 hb
    -- the first character of the rendering of b is its most significant digit
    obtain ⟨d, rest, hdrest⟩ : ∃ d rest, (Nat.digits 10 b).reverse = d :: rest := by
      rcases hrev : (Nat.digits 10 b).reverse with _ | ⟨d, rest⟩
      · exact absurd (by simpa using congrArg List.reverse hrev) hnil
      · exact ⟨d, rest, rfl⟩
    rw [decDigits_eq, hdrest] at h
    simp only [List.map_cons] at h
    have hd : d = (Nat.digits 10 b).getLast hnil := by
      have h1 := congrArg List.head? hdrest
      rw [List.head?_reverse, List.getLast?_eq_getLast _ hnil] at h1
      simp only [List.head?_cons] at h1
      exact (Option.some_inj.mp h1).symm
    have hmem : d ∈ Nat.digits 10 b := by
      rw [hd]
      exact List.getLast_mem hnil
    have hdlt : d < 10 := Nat.digits_lt_base (by norm_num) hmem
    have : digitChar d = '0' := by
      have := congrArg (fun l => l.head?) h
      simpa using this.symm
    rw [digitChar_lt_ten_eq_zero_iff hdlt] at this
    rw [hd] at this
    exact hlast this
  · exfalso
    rw [natDecL, natDecL, if_neg ha, if_pos hb] at h
    have hnil : Nat.digits 10 a ≠ [] := Nat.digits_ne_nil_iff_ne_zero.mpr ha
    have hlast := Nat.getLast_digit_ne_zero 10 ha
    obtain ⟨d, rest, hdrest⟩ : ∃ d rest, (Nat.digits 10 a).reverse = d :: rest := by
      rcases hrev : (Nat.digits 10 a).reverse with _ | ⟨d, rest⟩
      · exact absurd (by simpa using congrArg List.reverse hrev) hnil
      · exact ⟨d, rest, rfl⟩
    rw [decDigits_eq, hdrest] at h
    simp only [List.map_cons] at h
    have hd : d = (Nat.digits 10 a).getLast hnil := by
      have h1 := congrArg List.head? hdrest
      rw [List.head?_reverse, List.getLast?_eq_getLast _ hnil] at h1
      simp only [List.head?_cons] at h1
      exact (Option.some_inj.mp h1).symm
    have hmem : d ∈ Nat.digits 10 a := by
      rw [hd]
      exact List.getLast_mem hnil
    have hdlt : d < 10 := Nat.digits_lt_base (by norm_num) hmem
    have : digitChar d = '0' := by
      have := congrArg (fun l => l.head?) h
      simpa using this
    rw [digitChar_lt_ten_eq_zero_iff hdlt] at this
    rw [hd] at this
    exact hlast this
  · rw [natDecL, natDecL, if_neg ha, if_neg hb, decDigits_eq, decDigits_eq] at h
    have hmap : ∀ {l : List Nat}, (∀ d ∈ l, d < 10) → ∀ {l' : List Nat}, (∀ d ∈ l', d < 10) →
        l.map digitChar = l'.map digitChar → l = l' := by
      intro l
      induction l with
      | nil =>
        intro _ l' _ h'
        cases l' with
        | nil => rfl
        | cons x xs => simp at h'
      | cons x xs ih =>
        intro hl l' hl' h'
        cases l' with
        | nil => simp at h'
        | cons y ys =>
          simp only [List.map_cons, List.cons.injEq] at h'
          have hx : x < 10 := hl x (by simp)
          have hy : y < 10 := hl' y (by simp)
          have hxy := digitChar_inj hx hy h'.1
          have := ih (fun d hd => hl d (by simp [hd])) (fun d hd => hl' d (by simp [hd])) h'.2
          rw [hxy, this]
    have hda : ∀ d ∈ (Nat.digits 10 a).reverse, d < 10 := by
      intro d hd
      exact Nat.digits_lt_base (by norm_num) (List.mem_reverse.mp hd)
    have hdb : ∀ d ∈ (Nat.digits 10 b).reverse, d < 10 := by
      intro d hd
      exact Nat.digits_lt_base (by norm_num) (List.mem_reverse.mp hd)
    have := hmap hda hdb h
    have hrev := congrArg List.reverse this
    rw [List.reverse_reverse, List.reverse_reverse] at hrev
    have := congrArg (Nat.ofDigits 10) hrev
    rwa [Nat.ofDigits_digits, Nat.ofDigits_digits] at this

/-! ## Claim theorems -/

/-- C9: evaluation of the code at the failing event sequence.  The claim says
teardown releases the subscription handle, that no further updates for the
old market are processed afterwards, and that at most one subscription is
active at a time.  Running the translated lifecycle on
(effect for m1; cleanup; effect for m2; venue update for m1) shows the
opposite: the cleanup only nulls the ref, the old registration survives, the
old market's update is still processed, and two subscriptions are active. -/
theorem claim_C9_teardown :
    (streamRun [StreamEvent.effectRun "m1", StreamEvent.effectCleanup,
      StreamEvent.effectRun "m2", StreamEvent.venueUpdate "m1"]).processedUpdates = ["m1"] ∧
    (streamRun [StreamEvent.effectRun "m1", StreamEvent.effectCleanup,
      StreamEvent.effectRun "m2", StreamEvent.venueUpdate "m1"]).activeSubs = ["m2", "m1"] ∧
    (streamRun [StreamEvent.effectRun "m1", StreamEvent.effectCleanup,
      StreamEvent.effectRun "m2", StreamEvent.venueUpdate "m1"]).streamRef = some "m2" := by
  decide

/-- C5 counterexample: the claim asserts equal length for every pair of
distinct indices, but index 9 yields a 24-character suffix and index 10 a
25-character one, so the derived identifiers differ in length. -/
theorem claim_C5_counterexample :
    (9 : Nat) ≠ 10 ∧
    (deriveSubaccountId "0xAb" 9).length ≠ (deriveSubaccountId "0xAb" 10).length := by
  decide

/-- C5 (amended): for every base identifier and distinct non-negative
indices, the derived sub-account identifiers are distinct; their lengths are
equal exactly when the decimal renderings of the two indices have the same
number of digits (the 23-character zero padding is fixed, so the total
length is not). -/
theorem claim_C5_subaccount (base : String) (i1 i2 : Nat) (h : i1 ≠ i2) :
    deriveSubaccountId base i1 ≠ deriveSubaccountId base i2 ∧
    ((deriveSubaccountId base i1).length = (deriveSubaccountId base i2).length ↔
      (natDec i1).length = (natDec i2).length) := by
  constructor
  · intro he
    apply h
    apply natDec_injective
    have hd := congrArg String.data he
    rw [deriveSubaccountId, deriveSubaccountId, String.data_append, String.data_append,
      String.data_append, String.data_append] at hd
    have h1 : (natDec i1).data = (natDec i2).data := List.append_cancel_left hd
    exact String.ext h1
  · rw [deriveSubaccountId, deriveSubaccountId, String.length_append, String.length_append,
      String.length_append, String.length_append]
    omega

/-- C5 witness: the amended statement at base "0xAb" and indices 0 and 1. -/
theorem claim_C5_witness :
    deriveSubaccountId "0xAb" 0 ≠ deriveSubaccountId "0xAb" 1 ∧
    ((deriveSubaccountId "0xAb" 0).length = (deriveSubaccountId "0xAb" 1).length ↔
      (natDec 0).length = (natDec 1).length) :=
  claim_C5_subaccount "0xAb" 0 1 (by decide)

/-- C10: an update that, after shape normalization, carries neither a buys
field nor a sells field leaves the retained book (both sides) and the
derived reference price unchanged; the update is absorbed (only the loading
flag is touched), not treated as a clear or an error. -/
theorem claim_C10_frame (now : Nat) (orderbooks : RawData) (s : BookState)
    (hb : (extractOrderbook orderbooks).buysField = none)
    (hs : (extractOrderbook orderbooks).sellsField = none) :
    (processOrderbookData now orderbooks s).buyOrders = s.buyOrders ∧
    (processOrderbookData now orderbooks s).sellOrders = s.sellOrders ∧
    (processOrderbookData now orderbooks s).currentPrice = s.currentPrice := by
  have hc : hasBookContent (extractOrderbook orderbooks) = false := by
    rw [hasBookContent, hb, hs]
    simp
  rw [processOrderbookData]
  simp [hc]

/-- C10 witness: a null update against the non-trivial state `exState1`. -/
theorem claim_C10_witness :
    (extractOrderbook RawData.nullVal).buysField = none ∧
    (processOrderbookData 9 RawData.nullVal exState1).buyOrders = exState1.buyOrders ∧
    (processOrderbookData 9 RawData.nullVal exState1).sellOrders = exState1.sellOrders ∧
    (processOrderbookData 9 RawData.nullVal exState1).currentPrice = exState1.currentPrice :=
  ⟨rfl, (claim_C10_frame 9 RawData.nullVal exState1 rfl rfl).1,
    (claim_C10_frame 9 RawData.nullVal exState1 rfl rfl).2.1,
    (claim_C10_frame 9 RawData.nullVal exState1 rfl rfl).2.2⟩

/-- C3: the shared normalization dispatch accepts the three observed shapes —
a nested single-object wrapper, a one-element array wrapper, and a flat
object carrying the sides directly — extracting the same canonical book
content from each, and maps any shape without a nested wrapper to the input
itself rather than failing (the function is total). -/
theorem claim_C3_normalization (b s b1 s1 b2 s2 : Option (List OrderBookEntry)) :
    extractOrderbook (RawData.obj (some (RawData.obj none b s)) b1 s1) = RawData.obj none b s ∧
    extractOrderbook (RawData.arr [RawData.obj (some (RawData.obj none b s)) b2 s2]) =
      RawData.obj none b s ∧
    extractOrderbook (RawData.obj none b s) = RawData.obj none b s ∧
    (∀ d : RawData, hasWrappedBook d = false → extractOrderbook d = d) := by
  refine ⟨rfl, rfl, rfl, ?_⟩
  intro d hd
  cases d with
  | nullVal => rfl
  | obj ob bb ss =>
    cases ob with
    | none => rfl
    | some inner =>
      cases inner with
      | nullVal => rfl
      | obj o2 b2 s2 =>
        simp [hasWrappedBook, nestedBook, RawData.orderbookField, RawData.truthy] at hd
      | arr xs =>
        simp [hasWrappedBook, nestedBook, RawData.orderbookField, RawData.truthy] at hd
  | arr elems =>
    cases elems with
    | nil => rfl
    | cons first rest =>
      cases first with
      | nullVal => rfl
      | arr xs => rfl
      | obj ob2 b2 s2 =>
        cases ob2 with
        | none => rfl
        | some inner2 =>
          cases inner2 with
          | nullVal => rfl
          | obj o3 b3 s3 =>
            simp [hasWrappedBook, nestedBook, RawData.orderbookField, RawData.truthy] at hd
          | arr xs =>
            simp [hasWrappedBook, nestedBook, RawData.orderbookField, RawData.truthy] at hd

/-- C3 witness: the theorem at a concrete book content and at the
unrecognized shape null. -/
theorem claim_C3_witness :
    hasWrappedBook RawData.nullVal = false ∧
    extractOrderbook (RawData.obj (some (RawData.obj none (some []) none)) none none) =
      RawData.obj none (some []) none ∧
    extractOrderbook RawData.nullVal = RawData.nullVal :=
  ⟨by decide,
    (claim_C3_normalization (some []) none none none none none).1,
    (claim_C3_normalization (some []) none none none none none).2.2.2 RawData.nullVal (by decide)⟩

/-- Case analysis of `deriveBookState`: the processed sides are retained
verbatim, and the derived price follows the three cases, with the previous
price kept when both sides are empty. -/
theorem deriveBookState_spec (pb ps : List OrderBookEntry) (prev : DecNum) :
    (deriveBookState pb ps prev).buyOrders = pb ∧
    (deriveBookState pb ps prev).sellOrders = ps ∧
    (∀ bb ba, pb.head? = some bb → ps.head? = some ba →
      (deriveBookState pb ps prev).currentPrice = DecNum.half (DecNum.add bb.price ba.price)) ∧
    (∀ bb, pb.head? = some bb → ps = [] →
      (deriveBookState pb ps prev).currentPrice = bb.price) ∧
    (∀ ba, pb = [] → ps.head? = some ba →
      (deriveBookState pb ps prev).currentPrice = ba.price) ∧
    (pb = [] → ps = [] → (deriveBookState pb ps prev).currentPrice = prev) := by
  cases pb <;> cases ps <;> simp [deriveBookState]

/-- C1 counterexample: the claim's third case — "the reference price is
undefined (no reference price is available) when both sides are empty" — is
false of the code.  After a populated update (bid 4, ask 6, derived price 5)
followed by a content-bearing update whose sides are both empty, the
retained book is empty on both sides, yet the reference price is still the
stale 5: defined, positive, and exactly what the rest of the app treats as
an available market price. -/
theorem claim_C1_counterexample :
    hasBookContent (extractOrderbook exEmptySidesUpdate) = true ∧
    exState2.buyOrders = [] ∧
    exState2.sellOrders = [] ∧
    DecNum.toRat exState2.currentPrice = 5 ∧
    0 < DecNum.toRat exState2.currentPrice := by
  have hcp : exState2.currentPrice = ⟨50, 1⟩ := by decide
  refine ⟨by decide, by decide, by decide, ?_, ?_⟩
  · rw [hcp, DecNum.toRat]
    norm_num
  · rw [hcp, DecNum.toRat]
    norm_num

/-- C1 (amended): for every content-bearing normalized update, the derived
reference price is the arithmetic mean of the best bid and best ask when
both processed sides are non-empty, and the sole present side's best price
when exactly one side is non-empty.  When both sides are empty, however, the
reference price does NOT become undefined: no new price is derived and the
previously derived reference price is retained unchanged, still available to
consumers. -/
theorem claim_C1_reference_price (now : Nat) (orderbooks : RawData) (s : BookState)
    (hc : hasBookContent (extractOrderbook orderbooks) = true) :
    (∀ bb ba, (processOrderbookData now orderbooks s).buyOrders.head? = some bb →
      (processOrderbookData now orderbooks s).sellOrders.head? = some ba →
      DecNum.toRat (processOrderbookData now orderbooks s).currentPrice =
        (DecNum.toRat bb.price + DecNum.toRat ba.price) / 2) ∧
    (∀ bb, (processOrderbookData now orderbooks s).buyOrders.head? = some bb →
      (processOrderbookData now orderbooks s).sellOrders = [] →
      DecNum.toRat (processOrderbookData now orderbooks s).currentPrice =
        DecNum.toRat bb.price) ∧
    (∀ ba, (processOrderbookData now orderbooks s).buyOrders = [] →
      (processOrderbookData now orderbooks s).sellOrders.head? = some ba →
      DecNum.toRat (processOrderbookData now orderbooks s).currentPrice =
        DecNum.toRat ba.price) ∧
    ((processOrderbookData now orderbooks s).buyOrders = [] →
      (processOrderbookData now orderbooks s).sellOrders = [] →
      (processOrderbookData now orderbooks s).currentPrice = s.currentPrice) := by
  have hrw : processOrderbookData now orderbooks s =
      deriveBookState ((((extractOrderbook orderbooks).buysField.getD []).take 10).map
          (processLevel now))
        ((((extractOrderbook orderbooks).sellsField.getD []).take 10).map (processLevel now))
        s.currentPrice := by
    rw [processOrderbookData]
    simp only [hc, if_true]
  rw [hrw]
  obtain ⟨hb, hs, hmean, honlyb, honlys, hkeep⟩ :=
    deriveBookState_spec ((((extractOrderbook orderbooks).buysField.getD []).take 10).map
        (processLevel now))
      ((((extractOrderbook orderbooks).sellsField.getD []).take 10).map (processLevel now))
      s.currentPrice
  rw [hb, hs]
  refine ⟨?_, ?_, ?_, hkeep⟩
  · intro bb ba h1 h2
    rw [hmean bb ba h1 h2, DecNum.toRat_half, DecNum.toRat_add]
  · intro bb h1 h2
    rw [honlyb bb h1 h2]
  · intro ba h1 h2
    rw [honlys ba h1 h2]

/-- C1 witness: the theorem at the concrete update `exBookUpdate` (bid 4,
ask 6) from the initial state. -/
theorem claim_C1_witness :
    hasBookContent (extractOrderbook exBookUpdate) = true ∧
    DecNum.toRat (processOrderbookData 5 exBookUpdate initialBookState).currentPrice =
      (DecNum.toRat ⟨4, 0⟩ + DecNum.toRat ⟨6, 0⟩) / 2 :=
  ⟨by decide,
    (claim_C1_reference_price 5 exBookUpdate initialBookState (by decide)).1
      ⟨⟨4, 0⟩, ⟨1, 0⟩, 7⟩ ⟨⟨6, 0⟩, ⟨2, 0⟩, 7⟩ (by decide) (by decide)⟩

/-- C2 counterexample: with an empty quantity and a disconnected wallet, the
claimed order (wallet connection first) would report the wallet error, but
the code checks quantity presence first and returns silently, reporting
nothing at all. -/
theorem claim_C2_counterexample :
    handlePlaceOrder exC2State = PlaceOrderResult.silentReturn ∧
    handlePlaceOrder exC2State ≠ PlaceOrderResult.errorSet walletErrorMsg := by
  decide

/-- C2 (amended): validation short-circuits in the source's order — quantity
presence first, failing silently with no reported error; then wallet
connection, then market selection, then price presence for limit orders or
market-price availability for market orders; the reported error is the first
failure among the wallet, market and price checks, evaluated only when the
quantity is non-empty. -/
theorem claim_C2_validation_order (s : AppState) :
    (s.quantity = "" → handlePlaceOrder s = PlaceOrderResult.silentReturn) ∧
    (s.quantity ≠ "" → (s.isConnected = false ∨ s.injectiveAddresses = []) →
      handlePlaceOrder s = PlaceOrderResult.errorSet walletErrorMsg) ∧
    (s.quantity ≠ "" → s.isConnected = true → s.injectiveAddresses ≠ [] →
      getCurrentPairData s = none →
      handlePlaceOrder s = PlaceOrderResult.errorSet marketErrorMsg) ∧
    (s.quantity ≠ "" → s.isConnected = true → s.injectiveAddresses ≠ [] →
      (getCurrentPairData s).isSome = true → s.orderType = OrderType.limit →
      limitPriceRejected s.price = true →
      handlePlaceOrder s = PlaceOrderResult.errorSet limitPriceErrorMsg) ∧
    (s.quantity ≠ "" → s.isConnected = true → s.injectiveAddresses ≠ [] →
      (getCurrentPairData s).isSome = true → s.orderType = OrderType.limit →
      limitPriceRejected s.price = false →
      handlePlaceOrder s =
        PlaceOrderResult.proceedToScaling (parseFloatDec s.price) (parseFloatDec s.quantity)) ∧
    (s.quantity ≠ "" → s.isConnected = true → s.injectiveAddresses ≠ [] →
      (getCurrentPairData s).isSome = true → s.orderType = OrderType.market →
      DecNum.toRat s.currentPrice ≤ 0 →
      handlePlaceOrder s = PlaceOrderResult.errorSet marketPriceErrorMsg) ∧
    (s.quantity ≠ "" → s.isConnected = true → s.injectiveAddresses ≠ [] →
      (getCurrentPairData s).isSome = true → s.orderType = OrderType.market →
      0 < DecNum.toRat s.currentPrice →
      handlePlaceOrder s =
        PlaceOrderResult.proceedToScaling (some s.currentPrice) (parseFloatDec s.quantity)) := by
  have hble : DecNum.ble s.currentPrice DecNum.zero = true ↔ DecNum.toRat s.currentPrice ≤ 0 := by
    rw [DecNum.ble_iff, DecNum.toRat_zero]
  refine ⟨?_, ?_, ?_, ?_, ?_, ?_, ?_⟩
  · intro hq
    rw [handlePlaceOrder, if_pos hq]
  · intro hq hw
    rw [handlePlaceOrder, if_neg hq]
    have hw' : ((!s.isConnected) || (s.injectiveAddresses.length == 0)) = true := by
      rcases hw with h | h
      · simp [h]
      · simp [h]
    simp only [hw', if_true]
  · intro hq hc ha hm
    have ha' : s.injectiveAddresses.length ≠ 0 := fun h0 => ha (List.length_eq_zero.mp h0)
    rw [handlePlaceOrder, if_neg hq]
    have hw' : ((!s.isConnected) || (s.injectiveAddresses.length == 0)) = false := by
      simp [hc, ha']
    simp only [hw', Bool.false_eq_true, if_false, hm]
  · intro hq hc ha hp ht hr
    have ha' : s.injectiveAddresses.length ≠ 0 := fun h0 => ha (List.length_eq_zero.mp h0)
    obtain ⟨p, hpp⟩ := Option.isSome_iff_exists.mp hp
    rw [handlePlaceOrder, if_neg hq]
    have hw' : ((!s.isConnected) || (s.injectiveAddresses.length == 0)) = false := by
      simp [hc, ha']
    simp only [hw', Bool.false_eq_true, if_false, hpp, ht, hr, if_true]
  · intro hq hc ha hp ht hr
    have ha' : s.injectiveAddresses.length ≠ 0 := fun h0 => ha (List.length_eq_zero.mp h0)
    obtain ⟨p, hpp⟩ := Option.isSome_iff_exists.mp hp
    rw [handlePlaceOrder, if_neg hq]
    have hw' : ((!s.isConnected) || (s.injectiveAddresses.length == 0)) = false := by
      simp [hc, ha']
    simp only [hw', Bool.false_eq_true, if_false, hpp, ht, hr, if_false]
  · intro hq hc ha hp ht hr
    have ha' : s.injectiveAddresses.length ≠ 0 := fun h0 => ha (List.length_eq_zero.mp h0)
    obtain ⟨p, hpp⟩ := Option.isSome_iff_exists.mp hp
    rw [handlePlaceOrder, if_neg hq]
    have hw' : ((!s.isConnected) || (s.injectiveAddresses.length == 0)) = false := by
      simp [hc, ha']
    have hble' : DecNum.ble s.currentPrice DecNum.zero = true := hble.mpr hr
    simp only [hw', Bool.false_eq_true, if_false, hpp, ht, hble', if_true]
  · intro hq hc ha hp ht hr
    have ha' : s.injectiveAddresses.length ≠ 0 := fun h0 => ha (List.length_eq_zero.mp h0)
    obtain ⟨p, hpp⟩ := Option.isSome_iff_exists.mp hp
    rw [handlePlaceOrder, if_neg hq]
    have hw' : ((!s.isConnected) || (s.injectiveAddresses.length == 0)) = false := by
      simp [hc, ha']
    have hble' : DecNum.ble s.currentPrice DecNum.zero = false := by
      rcases h : DecNum.ble s.currentPrice DecNum.zero with _ | _
      · rfl
      · exact absurd (hble.mp h) (not_le.mpr hr)
    simp only [hw', Bool.false_eq_true, if_false, hpp, ht, hble', if_false]

/-- C2 witness: the amended statement applied to `exC2State` (empty
quantity, disconnected wallet): the silent return. -/
theorem claim_C2_witness : handlePlaceOrder exC2State = PlaceOrderResult.silentReturn :=
  (claim_C2_validation_order exC2State).1 rfl

/-- C8 counterexample: a reachable state with an order book that is empty on
both sides but a stale retained reference price (a populated book update
followed by one whose sides are present but empty).  A market order in that
state passes validation and reaches the scaling step, so emptiness of the
book does not imply the price-unavailable failure. -/
theorem claim_C8_counterexample :
    exState2.buyOrders = [] ∧
    exState2.sellOrders = [] ∧
    handlePlaceOrder exMarketOrderState =
      PlaceOrderResult.proceedToScaling (some ⟨50, 1⟩) (some ⟨1, 0⟩) := by
  decide

/-- C8 (amended): a market order fails with the price-unavailable reason and
never reaches the scaling step exactly when the retained reference price is
not positive (in particular before any book update has ever derived one);
an empty order book does not by itself make the price unavailable, because
the last derived reference price is retained. -/
theorem claim_C8_market_order (s : AppState)
    (hm : s.orderType = OrderType.market)
    (hp : DecNum.toRat s.currentPrice ≤ 0) :
    (∀ p q, handlePlaceOrder s ≠ PlaceOrderResult.proceedToScaling p q) ∧
    (s.quantity ≠ "" → s.isConnected = true → s.injectiveAddresses ≠ [] →
      (getCurrentPairData s).isSome = true →
      handlePlaceOrder s = PlaceOrderResult.errorSet marketPriceErrorMsg) := by
  have hble : DecNum.ble s.currentPrice DecNum.zero = true := by
    rw [DecNum.ble_iff, DecNum.toRat_zero]
    exact hp
  constructor
  · intro p q
    rw [handlePlaceOrder]
    by_cases hq : s.quantity = ""
    · simp [hq]
    · rw [if_neg hq]
      rcases hw : ((!s.isConnected) || (s.injectiveAddresses.length == 0)) with _ | _
      · simp only [Bool.false_eq_true, if_false]
        rcases hpair : getCurrentPairData s with _ | pair
        · simp
        · simp only [hm, hble, if_true]
          simp
      · simp
  · intro hq hc ha hpair
    have ha' : s.injectiveAddresses.length ≠ 0 := fun h0 => ha (List.length_eq_zero.mp h0)
    obtain ⟨p, hpp⟩ := Option.isSome_iff_exists.mp hpair
    rw [handlePlaceOrder, if_neg hq]
    have hw' : ((!s.isConnected) || (s.injectiveAddresses.length == 0)) = false := by
      simp [hc, ha']
    simp only [hw', Bool.false_eq_true, if_false, hpp, hm, hble, if_true]

/-- C8 witness: the amended statement in the pristine state (no book ever
processed, reference price 0): the market order reports the
price-unavailable error. -/
theorem claim_C8_witness :
    handlePlaceOrder
      ⟨true, ["inj1addr"], [⟨"0xmarket", "INJ/USDT"⟩], "INJ/USDT", OrderType.market, "", "1",
        DecNum.zero⟩ =
      PlaceOrderResult.errorSet marketPriceErrorMsg :=
  (claim_C8_market_order
    ⟨true, ["inj1addr"], [⟨"0xmarket", "INJ/USDT"⟩], "INJ/USDT", OrderType.market, "", "1",
      DecNum.zero⟩
    rfl (le_of_eq DecNum.toRat_zero)).2 (by decide) rfl (by decide) rfl

/-- Truncating to the first 10 levels and re-wrapping each level preserves
any pairwise price ordering of the incoming side. -/
theorem pairwise_price_take_map (now : Nat) (R : ℚ → ℚ → Prop) (l : List OrderBookEntry)
    (h : l.Pairwise (fun a b => R (DecNum.toRat a.price) (DecNum.toRat b.price))) :
    ((l.take 10).map (processLevel now)).Pairwise
      (fun a b => R (DecNum.toRat a.price) (DecNum.toRat b.price)) := by
  rw [List.pairwise_map]
  exact h.sublist (List.take_sublist 10 l)

/-- C4 counterexample: an update whose buys side lists price 1 before price 5
is retained in that order — the code truncates but never sorts, so the
retained bid levels are not descending. -/
theorem claim_C4_counterexample :
    (processOrderbookData 0 exUnsortedUpdate initialBookState).buyOrders.map
      (fun e => e.price) = [⟨1, 0⟩, ⟨5, 0⟩] ∧
    ¬ bidsSortedDesc (processOrderbookData 0 exUnsortedUpdate initialBookState).buyOrders := by
  constructor
  · decide
  · intro h
    rw [bidsSortedDesc] at h
    have hb : (processOrderbookData 0 exUnsortedUpdate initialBookState).buyOrders =
        [⟨⟨1, 0⟩, ⟨1, 0⟩, 7⟩, ⟨⟨5, 0⟩, ⟨1, 0⟩, 7⟩] := by decide
    rw [hb] at h
    have h12 := (List.pairwise_cons.mp h).1 ⟨⟨5, 0⟩, ⟨1, 0⟩, 7⟩ (by simp)
    norm_num [DecNum.toRat] at h12

/-- C4 (amended): after every processed update the retained book holds at
most 10 levels per side (levels beyond the first 10 of the incoming sequence
are dropped), and whenever the incoming sides are correctly ordered (bids
descending, asks ascending) — as the venue delivers them — the retained
levels are too, truncation being order-preserving.  The previously retained
state is assumed to satisfy the same invariant (for content-free updates,
which leave it unchanged). -/
theorem claim_C4_retention (now : Nat) (orderbooks : RawData) (s : BookState)
    (hlb : s.buyOrders.length ≤ 10) (hls : s.sellOrders.length ≤ 10)
    (hsb : bidsSortedDesc s.buyOrders) (hss : asksSortedAsc s.sellOrders)
    (hinb : bidsSortedDesc ((extractOrderbook orderbooks).buysField.getD []))
    (hins : asksSortedAsc ((extractOrderbook orderbooks).sellsField.getD [])) :
    (processOrderbookData now orderbooks s).buyOrders.length ≤ 10 ∧
    (processOrderbookData now orderbooks s).sellOrders.length ≤ 10 ∧
    bidsSortedDesc (processOrderbookData now orderbooks s).buyOrders ∧
    asksSortedAsc (processOrderbookData now orderbooks s).sellOrders := by
  rw [processOrderbookData]
  by_cases hc : hasBookContent (extractOrderbook orderbooks)
  · simp only [hc, if_true]
    obtain ⟨hb, hs', -⟩ :=
      deriveBookState_spec
        ((((extractOrderbook orderbooks).buysField.getD []).take 10).map (processLevel now))
        ((((extractOrderbook orderbooks).sellsField.getD []).take 10).map (processLevel now))
        s.currentPrice
    rw [hb, hs']
    refine ⟨?_, ?_, ?_, ?_⟩
    · rw [List.length_map, List.length_take]
      omega
    · rw [List.length_map, List.length_take]
      omega
    · exact pairwise_price_take_map now (fun x y => y ≤ x) _ hinb
    · exact pairwise_price_take_map now (fun x y => x ≤ y) _ hins
  · simp only [hc, Bool.false_eq_true, if_false]
    exact ⟨hlb, hls, hsb, hss⟩

/-- C4 witness: the amended statement for the one-level-per-side update
`exBookUpdate` against the initial state. -/
theorem claim_C4_witness :
    (processOrderbookData 5 exBookUpdate initialBookState).buyOrders.length ≤ 10 ∧
    (processOrderbookData 5 exBookUpdate initialBookState).sellOrders.length ≤ 10 ∧
    bidsSortedDesc (processOrderbookData 5 exBookUpdate initialBookState).buyOrders ∧
    asksSortedAsc (processOrderbookData 5 exBookUpdate initialBookState).sellOrders :=
  claim_C4_retention 5 exBookUpdate initialBookState (by decide) (by decide)
    List.Pairwise.nil List.Pairwise.nil
    (List.pairwise_singleton _ _) (List.pairwise_singleton _ _)

/-- A digit character below ten is never the decimal point. -/
theorem digitChar_ne_dot_aux : ∀ d < 10, digitChar d ≠ '.' := by
  decide

/-- For a list containing an element failing the predicate, takeWhile and
dropWhile ignore anything appended after it. -/
theorem takeWhile_dropWhile_append {p : Char → Bool} {a : List Char}
    (h : ∃ x ∈ a, p x = false) (b : List Char) :
    (a ++ b).takeWhile p = a.takeWhile p ∧ (a ++ b).dropWhile p = a.dropWhile p ++ b := by
  induction a with
  | nil =>
    obtain ⟨y, hy, -⟩ := h
    exact absurd hy (List.not_mem_nil y)
  | cons x xs ih =>
    obtain ⟨y, hy, hpy⟩ := h
    by_cases hx : p x = true
    · have hxs : ∃ z ∈ xs, p z = false := by
        rcases List.mem_cons.mp hy with h1 | h1
        · rw [h1, hx] at hpy
          cases hpy
        · exact ⟨y, h1, hpy⟩
      obtain ⟨ht, hd⟩ := ih hxs
      constructor
      · rw [List.cons_append, List.takeWhile_cons, if_pos hx, ht, List.takeWhile_cons, if_pos hx]
      · rw [List.cons_append, List.dropWhile_cons, if_pos hx, hd, List.dropWhile_cons, if_pos hx]
    · rw [Bool.not_eq_true] at hx
      constructor
      · rw [List.cons_append, List.takeWhile_cons, hx, List.takeWhile_cons, hx]
        simp
      · rw [List.cons_append, List.dropWhile_cons, hx, List.dropWhile_cons, hx]
        simp

/-- The zero run of a zero-padded block followed by a non-zero character. -/
theorem takeWhile_replicate_cons (k : Nat) (c : Char) (hc : (c == '0') = false)
    (rest : List Char) :
    (List.replicate k '0' ++ c :: rest).takeWhile (fun x => x == '0') =
      List.replicate k '0' := by
  induction k with
  | zero =>
    rw [List.replicate_zero, List.nil_append, List.takeWhile_cons, hc]
    simp
  | succ i ih =>
    rw [List.replicate_succ, List.cons_append, List.takeWhile_cons]
    simp only [beq_self_eq_true, if_true, ih]

/-- Dropping leading zero characters of a rendered digit list is rendering
the digit list with its leading zero digits dropped. -/
theorem dropWhile_map_digitChar (ds : List Nat) (hdig : ∀ d ∈ ds, d < 10) :
    (ds.map digitChar).dropWhile (fun c => c == '0') =
      (ds.dropWhile (fun d => d == 0)).map digitChar := by
  induction ds with
  | nil => rfl
  | cons x xs ih =>
    have hx : x < 10 := hdig x (List.mem_cons_self x xs)
    by_cases h0 : x = 0
    · subst h0
      have hxz : (digitChar 0 == '0') = true := by decide
      rw [List.map_cons, List.dropWhile_cons, hxz, List.dropWhile_cons]
      simp only [beq_self_eq_true, if_true]
      exact ih (fun d hd => hdig d (List.mem_cons_of_mem 0 hd))
    · have hxz : (digitChar x == '0') = false := by
        rw [beq_eq_false_iff_ne]
        intro hc
        exact h0 ((digitChar_lt_ten_eq_zero_iff hx).mp hc)
      have hxz' : (x == 0) = false := by
        rw [beq_eq_false_iff_ne]
        exact h0
      rw [List.map_cons, List.dropWhile_cons, hxz, List.dropWhile_cons, hxz']
      simp

/-- Same for takeWhile. -/
theorem takeWhile_map_digitChar (ds : List Nat) (hdig : ∀ d ∈ ds, d < 10) :
    (ds.map digitChar).takeWhile (fun c => c == '0') =
      (ds.takeWhile (fun d => d == 0)).map digitChar := by
  induction ds with
  | nil => rfl
  | cons x xs ih =>
    have hx : x < 10 := hdig x (List.mem_cons_self x xs)
    by_cases h0 : x = 0
    · subst h0
      have hxz : (digitChar 0 == '0') = true := by decide
      rw [List.map_cons, List.takeWhile_cons, hxz, List.takeWhile_cons]
      simp only [beq_self_eq_true, if_true, List.map_cons]
      rw [ih (fun d hd => hdig d (List.mem_cons_of_mem 0 hd))]
    · have hxz : (digitChar x == '0') = false := by
        rw [beq_eq_false_iff_ne]
        intro hc
        exact h0 ((digitChar_lt_ten_eq_zero_iff hx).mp hc)
      have hxz' : (x == 0) = false := by
        rw [beq_eq_false_iff_ne]
        exact h0
      rw [List.map_cons, List.takeWhile_cons, hxz, List.takeWhile_cons, hxz']
      simp

/-- Facts about the digit list of a non-zero number: non-empty, digits below
ten, most significant digit non-zero. -/
theorem decDigits_facts {n : Nat} (hn : n ≠ 0) :
    decDigits n ≠ [] ∧ (∀ d ∈ decDigits n, d < 10) ∧
      (∀ h : decDigits n ≠ [], (decDigits n).getLast h ≠ 0) := by
  rw [decDigits_eq]
  refine ⟨Nat.digits_ne_nil_iff_ne_zero.mpr hn, ?_, ?_⟩
  · intro d hd
    exact Nat.digits_lt_base (by norm_num) hd
  · intro h
    exact Nat.getLast_digit_ne_zero 10 hn

/-- The stripped digit list of a non-zero number is non-empty and its last
digit is unchanged. -/
theorem dropWhile_digits_facts {n : Nat} (hn : n ≠ 0) :
    (decDigits n).dropWhile (fun d => d == 0) ≠ [] ∧
      (∀ h : (decDigits n).dropWhile (fun d => d == 0) ≠ [],
        ((decDigits n).dropWhile (fun d => d == 0)).getLast h ≠ 0) ∧
      (∀ d ∈ (decDigits n).dropWhile (fun d => d == 0), d < 10) := by
  obtain ⟨hne, hdig, hlast⟩ := decDigits_facts hn
  have hsub : ((decDigits n).dropWhile (fun d => d == 0)).Sublist (decDigits n) :=
    List.dropWhile_sublist _
  have hne' : (decDigits n).dropWhile (fun d => d == 0) ≠ [] := by
    intro h0
    have hall := List.dropWhile_eq_nil_iff.mp h0
    have := hall _ (List.getLast_mem hne)
    rw [beq_iff_eq] at this
    exact hlast hne this
  refine ⟨hne', ?_, ?_⟩
  · intro h
    have heq : (decDigits n).takeWhile (fun d => d == 0) ++
        (decDigits n).dropWhile (fun d => d == 0) = decDigits n :=
      List.takeWhile_append_dropWhile _ _
    have hgl : ((decDigits n).takeWhile (fun d => d == 0) ++
        (decDigits n).dropWhile (fun d => d == 0)).getLast (by rw [heq]; exact hne) =
        (decDigits n).getLast hne := by
      congr 1
    rw [List.getLast_append] at hgl
    rw [dif_neg (by simpa using hne')] at hgl
    intro hc
    apply hlast hne
    rw [← hgl]
    exact hc
  · intro d hd
    exact hdig d (hsub.subset hd)

/-- Structure of stripping the trailing zeros of a fixed-point rendering
"0." ++ zeros ++ digits: exactly the trailing zero digits of the number go
away, and the leading zero run is untouched. -/
theorem stripTrailingZerosL_structured (k : Nat) (ds : List Nat)
    (hne : ds ≠ []) (hlast : ∀ h : ds ≠ [], ds.getLast h ≠ 0) (hdig : ∀ d ∈ ds, d < 10) :
    stripTrailingZerosL ('0' :: '.' :: (List.replicate k '0' ++ ds.reverse.map digitChar)) =
      '0' :: '.' :: (List.replicate k '0' ++
        ((ds.dropWhile (fun d => d == 0)).reverse.map digitChar)) := by
  have hms : ds.getLast hne ∈ ds := List.getLast_mem hne
  have hrev : ('0' :: '.' :: (List.replicate k '0' ++ ds.reverse.map digitChar)).reverse =
      ds.map digitChar ++ (List.replicate k '0' ++ ['.', '0']) := by
    rw [List.reverse_cons, List.reverse_cons, List.reverse_append, List.reverse_replicate,
      ← List.map_reverse, List.reverse_reverse]
    simp [List.append_assoc]
  have hnz : ∃ x ∈ ds.map digitChar, (x == '0') = false := by
    refine ⟨digitChar (ds.getLast hne), List.mem_map_of_mem _ hms, ?_⟩
    rw [beq_eq_false_iff_ne]
    intro hc
    exact hlast hne ((digitChar_lt_ten_eq_zero_iff (hdig _ hms)).mp hc)
  obtain ⟨htake, hdrop⟩ :=
    takeWhile_dropWhile_append hnz (List.replicate k '0' ++ ['.', '0'])
  have htakemap := takeWhile_map_digitChar ds hdig
  have hdropmap := dropWhile_map_digitChar ds hdig
  simp only [stripTrailingZerosL]
  rw [hrev, htake, hdrop, htakemap, hdropmap]
  by_cases ht : ((ds.takeWhile (fun d => d == 0)).map digitChar).length = 0
  · rw [if_pos ht]
    have h0 : ds.takeWhile (fun d => d == 0) = [] := by
      rw [List.length_map] at ht
      exact List.length_eq_zero.mp ht
    have hdall : ds.dropWhile (fun d => d == 0) = ds := by
      have := List.takeWhile_append_dropWhile (fun d => d == 0) ds
      rw [h0, List.nil_append] at this
      exact this
    rw [hdall]
  · rw [if_neg ht]
    have hne' : ds.dropWhile (fun d => d == 0) ≠ [] := by
      intro h0
      have hall := List.dropWhile_eq_nil_iff.mp h0
      have := hall _ hms
      rw [beq_iff_eq] at this
      exact hlast hne this
    obtain ⟨hd, tl, hdtl⟩ : ∃ hd tl, ds.dropWhile (fun d => d == 0) = hd :: tl := by
      rcases hx : ds.dropWhile (fun d => d == 0) with _ | ⟨hd, tl⟩
      · exact absurd hx hne'
      · exact ⟨hd, tl, rfl⟩
    have hhd10 : hd < 10 := by
      refine hdig hd ((List.dropWhile_sublist (fun d => d == 0)).subset ?_)
      rw [hdtl]
      exact List.mem_cons_self hd tl
    have hhead : ((ds.dropWhile (fun d => d == 0)).map digitChar ++
        (List.replicate k '0' ++ ['.', '0'])).head? = some (digitChar hd) := by
      rw [hdtl]
      rfl
    rw [if_neg ?hne2]
    case hne2 =>
      rw [hhead]
      intro hc
      exact digitChar_ne_dot_aux hd hhd10 (Option.some_inj.mp hc)
    rw [List.reverse_append, List.reverse_append, List.reverse_replicate,
      ← List.map_reverse]
    simp [List.append_assoc]

/-- The leading-zero matcher on a stripped rendering "0." ++ zeros ++
significant digits: it reports exactly the zero-run length. -/
theorem leadingZeroMatchL_structured (k : Nat) (hk : k ≠ 0) (c : Char)
    (hc : (c == '0') = false) (rest : List Char) :
    leadingZeroMatchL ('0' :: '.' :: (List.replicate k '0' ++ c :: rest)) = some k := by
  simp only [leadingZeroMatchL]
  rw [takeWhile_replicate_cons k c hc rest, List.length_replicate]
  rw [if_neg hk]

/-- Unfolded form of `decToFixed 20` when the rounded value stays below
10^20: an integer part "0" followed by the 20-digit zero-padded fraction. -/
theorem decToFixed20_data (m : DecNum) (hlt : roundHalfUpNat 20 m < 10 ^ 20) :
    (decToFixed 20 m).data =
      '0' :: '.' :: (List.replicate (20 - (natDecL (roundHalfUpNat 20 m)).length) '0' ++
        natDecL (roundHalfUpNat 20 m)) := by
  simp only [decToFixed]
  rw [if_neg (by norm_num : (20 : Nat) ≠ 0)]
  rw [Nat.div_eq_of_lt hlt, Nat.mod_eq_of_lt hlt]
  show natDecL 0 ++ '.' :: padZeros 20 (natDecL (roundHalfUpNat 20 m)) = _
  rw [padZeros]
  rfl

/-- The rendering of a non-zero number and its length. -/
theorem natDecL_of_ne {n : Nat} (hn : n ≠ 0) :
    natDecL n = (decDigits n).reverse.map digitChar ∧
      (natDecL n).length = (decDigits n).length := by
  rw [natDecL, if_neg hn]
  constructor
  · rfl
  · rw [List.length_map, List.length_reverse]

/-- Arithmetic bound: a value below 1e-4 rounds at 20 decimals to at most
10^16. -/
theorem roundHalfUpNat20_le (m : DecNum) (h1 : DecNum.toRat m < 1 / 10 ^ 4) :
    roundHalfUpNat 20 m ≤ 10 ^ 16 := by
  rw [roundHalfUpNat]
  rcases le_or_lt m.mant 0 with hm | hm
  · have hnum : (2 * m.mant * 10 ^ 20 + 10 ^ m.exp).toNat ≤ 10 ^ m.exp := by
      rw [Int.toNat_le]
      have h2 : 2 * m.mant * 10 ^ 20 ≤ 0 := by
        apply mul_nonpos_of_nonpos_of_nonneg
        · omega
        · positivity
      push_cast
      omega
    calc (2 * m.mant * 10 ^ 20 + 10 ^ m.exp).toNat / (2 * 10 ^ m.exp)
        ≤ 10 ^ m.exp / (2 * 10 ^ m.exp) := Nat.div_le_div_right hnum
      _ = 0 := Nat.div_eq_of_lt (by
          have hp : 0 < 10 ^ m.exp := pow_pos (by norm_num) m.exp
          omega)
      _ ≤ 10 ^ 16 := Nat.zero_le _
  · set M := m.mant.toNat with hMdef
    have hmant : m.mant = (M : Int) := by
      rw [hMdef, Int.toNat_of_nonneg (le_of_lt hm)]
    have hltq : (M : ℚ) * 10 ^ 4 < 10 ^ m.exp := by
      rw [DecNum.toRat, div_lt_div_iff₀ (DecNum.pow_ten_pos m.exp) (by positivity)] at h1
      rw [hmant] at h1
      push_cast at h1
      calc (M : ℚ) * 10 ^ 4 < 1 * 10 ^ m.exp := h1
        _ = 10 ^ m.exp := one_mul _
    have hltN : M * 10 ^ 4 < 10 ^ m.exp := by exact_mod_cast hltq
    have hnum : (2 * m.mant * 10 ^ 20 + 10 ^ m.exp).toNat =
        2 * M * 10 ^ 20 + 10 ^ m.exp := by
      rw [hmant]
      have hcast : (2 * (M : Int) * 10 ^ 20 + 10 ^ m.exp) =
          ((2 * M * 10 ^ 20 + 10 ^ m.exp : Nat) : Int) := by
        push_cast
        ring
      rw [hcast, Int.toNat_natCast]
    rw [hnum]
    have hpos : 0 < 2 * 10 ^ m.exp := by positivity
    refine Nat.lt_succ_iff.mp ?_
    rw [Nat.succ_eq_add_one, Nat.div_lt_iff_lt_mul hpos]
    have hsplit : (10 : ℕ) ^ 20 = 10 ^ 4 * 10 ^ 16 := by norm_num
    rw [hsplit]
    have hscale : 2 * (M * 10 ^ 4) * 10 ^ 16 + 2 * 10 ^ 16 ≤ 2 * 10 ^ m.exp * 10 ^ 16 := by
      have : (M * 10 ^ 4 + 1) * (2 * 10 ^ 16) ≤ 10 ^ m.exp * (2 * 10 ^ 16) :=
        Nat.mul_le_mul_right _ hltN
      nlinarith [this]
    nlinarith [hscale, pow_pos (by norm_num : (0:ℕ) < 10) m.exp]

/-- A number at most 10^16 has at most 17 decimal digits. -/
theorem decDigits_length_le_17 {n : Nat} (h : n ≤ 10 ^ 16) :
    (decDigits n).length ≤ 17 := by
  rw [decDigits_eq]
  by_cases hn : n = 0
  · subst hn
    simp
  · rw [Nat.digits_len 10 n (by norm_num) hn]
    have hlog : Nat.log 10 n < 17 :=
      Nat.log_lt_of_lt_pow hn (lt_of_le_of_lt h (by norm_num))
    omega

/-- A non-zero number has at least one digit. -/
theorem decDigits_length_pos {n : Nat} (hn : n ≠ 0) : 1 ≤ (decDigits n).length := by
  have hne := (decDigits_facts hn).1
  exact List.length_pos.mpr hne

/-- The value of the decimal threshold constant. -/
theorem toRat_one_em4 : DecNum.toRat ⟨1, 4⟩ = 1 / 10 ^ 4 := by
  rw [DecNum.toRat]
  norm_num

/-- A positive value is not semantically zero. -/
theorem beq_zero_false_of_pos {m : DecNum} (h0 : 0 < DecNum.toRat m) :
    m.beq DecNum.zero = false := by
  rcases hb : m.beq DecNum.zero with _ | _
  · rfl
  · have := (DecNum.beq_iff m DecNum.zero).mp hb
    rw [DecNum.toRat_zero] at this
    rw [this] at h0
    exact absurd h0 (lt_irrefl 0)

/-- A value below the threshold fails the threshold test. -/
theorem ble_em4_false_of_lt {m : DecNum} (h1 : DecNum.toRat m < 1 / 10 ^ 4) :
    DecNum.ble ⟨1, 4⟩ m = false := by
  rcases hb : DecNum.ble ⟨1, 4⟩ m with _ | _
  · rfl
  · have := (DecNum.ble_iff ⟨1, 4⟩ m).mp hb
    rw [toRat_one_em4] at this
    exact absurd h1 (not_lt.mpr this)

/-- Dropping past a zero-padded block: `drop (k + 2 + j)` on
"0." ++ zeros(k) ++ X reaches `X.drop j`. -/
theorem drop_replicate_append (k j : Nat) (c : Char) (X : List Char) :
    (List.replicate k c ++ X).drop (k + j) = X.drop j := by
  induction k with
  | zero => simp
  | succ i ih =>
    rw [List.replicate_succ, List.cons_append]
    have harith : i + 1 + j = (i + j) + 1 := by omega
    rw [harith, List.drop_succ_cons, ih]

/-- Dropping on the assembled rendering. -/
theorem drop_assembled (k j : Nat) (X : List Char) :
    ('0' :: '.' :: (List.replicate k '0' ++ X)).drop (k + 2 + j) = X.drop j := by
  have harith : k + 2 + j = (k + j) + 1 + 1 := by omega
  rw [harith, List.drop_succ_cons, List.drop_succ_cons, drop_replicate_append]

/-- C6 (amended): for a positive magnitude below the 1e-4 threshold, let n be
the magnitude rounded half-up at 20 decimal places (the toFixed(20)
rendering).  When n is zero — magnitudes below 0.5e-20 — the formatter does
not produce the compressed form at all: it falls back to the default number
rendering (scientific notation).  Otherwise it produces the compressed form
whose zero-count indicator is the number of leading zero digits of the
20-decimal rendering (20 minus the digit count of n) clamped to 9, followed
by up to 4 significant digits of n, shifted past the first (count − 9)
digits when the true count exceeds 9. -/
theorem claim_C6_formatter (m : DecNum) (sym : String)
    (h0 : 0 < DecNum.toRat m) (h1 : DecNum.toRat m < 1 / 10 ^ 4) :
    (roundHalfUpNat 20 m = 0 → formatSmallPrice m sym = jsNumberToString m) ∧
    (roundHalfUpNat 20 m ≠ 0 →
      formatSmallPrice m sym =
        "0.0" ++ subscriptStr (min (20 - (decDigits (roundHalfUpNat 20 m)).length) 9) ++
          (⟨((((decDigits (roundHalfUpNat 20 m)).dropWhile (fun d => d == 0)).reverse.map
              digitChar).drop ((20 - (decDigits (roundHalfUpNat 20 m)).length) - 9)).take 4⟩ :
            String)) := by
  have hbeq := beq_zero_false_of_pos h0
  have hble := ble_em4_false_of_lt h1
  constructor
  · intro hn
    have hfix : decToFixed 20 m = ⟨'0' :: '.' :: List.replicate 20 '0'⟩ := by
      simp only [decToFixed]
      rw [hn]
      rfl
    simp only [formatSmallPrice, hbeq, hble, Bool.false_eq_true, if_false, hfix]
    rfl
  · intro hn
    set n := roundHalfUpNat 20 m with hndef
    obtain ⟨hnl_eq, hnl_len⟩ := natDecL_of_ne hn
    obtain ⟨hds_ne, hds_dig, hds_last⟩ := decDigits_facts hn
    obtain ⟨hds'_ne, hds'_last, hds'_dig⟩ := dropWhile_digits_facts hn
    have hle16 : n ≤ 10 ^ 16 := roundHalfUpNat20_le m h1
    have hL17 : (decDigits n).length ≤ 17 := decDigits_length_le_17 hle16
    have hL1 : 1 ≤ (decDigits n).length := decDigits_length_pos hn
    have hlt20 : n < 10 ^ 20 := lt_of_le_of_lt hle16 (by norm_num)
    have hfix : (decToFixed 20 m).data =
        '0' :: '.' :: (List.replicate (20 - (decDigits n).length) '0' ++
          (decDigits n).reverse.map digitChar) := by
      rw [decToFixed20_data m hlt20, hnl_len, hnl_eq]
    have hstrip : stripTrailingZeros (decToFixed 20 m) =
        ⟨'0' :: '.' :: (List.replicate (20 - (decDigits n).length) '0' ++
          ((decDigits n).dropWhile (fun d => d == 0)).reverse.map digitChar)⟩ := by
      rw [stripTrailingZeros, hfix,
        stripTrailingZerosL_structured (20 - (decDigits n).length) (decDigits n)
          hds_ne hds_last hds_dig]
    obtain ⟨c0, rest0, hX⟩ : ∃ c0 rest0,
        ((decDigits n).dropWhile (fun d => d == 0)).reverse.map digitChar = c0 :: rest0 := by
      rcases hx : ((decDigits n).dropWhile (fun d => d == 0)).reverse.map digitChar
        with _ | ⟨c0, rest0⟩
      · exfalso
        have h2 : ((decDigits n).dropWhile (fun d => d == 0)).reverse = [] :=
          List.map_eq_nil_iff.mp hx
        have h3 : (decDigits n).dropWhile (fun d => d == 0) = [] := by
          simpa using congrArg List.reverse h2
        exact hds'_ne h3
      · exact ⟨c0, rest0, rfl⟩
    have hc0 : (c0 == '0') = false := by
      have hh := congrArg List.head? hX
      rw [List.head?_map, List.head?_reverse,
        List.getLast?_eq_getLast _ hds'_ne] at hh
      simp only [Option.map_some', List.head?_cons] at hh
      have hc0eq : c0 = digitChar (((decDigits n).dropWhile (fun d => d == 0)).getLast hds'_ne) :=
        (Option.some_inj.mp hh).symm
      rw [hc0eq, beq_eq_false_iff_ne]
      intro hcontra
      refine hds'_last hds'_ne ?_
      refine (digitChar_lt_ten_eq_zero_iff (hds'_dig _ (List.getLast_mem hds'_ne))).mp hcontra
    have hk0 : 20 - (decDigits n).length ≠ 0 := by omega
    have hmatch : leadingZeroMatch (stripTrailingZeros (decToFixed 20 m)) =
        some (20 - (decDigits n).length) := by
      rw [hstrip, leadingZeroMatch]
      show leadingZeroMatchL ('0' :: '.' :: (List.replicate (20 - (decDigits n).length) '0' ++
        ((decDigits n).dropWhile (fun d => d == 0)).reverse.map digitChar)) = _
      rw [hX]
      exact leadingZeroMatchL_structured _ hk0 c0 hc0 rest0
    have hdata : (stripTrailingZeros (decToFixed 20 m)).data =
        '0' :: '.' :: (List.replicate (20 - (decDigits n).length) '0' ++
          ((decDigits n).dropWhile (fun d => d == 0)).reverse.map digitChar) := by
      rw [hstrip]
    simp only [formatSmallPrice, hbeq, hble, Bool.false_eq_true, if_false, hmatch, hdata]
    by_cases hk9 : 20 - (decDigits n).length > 9
    · rw [if_pos hk9]
      have hmin : min (20 - (decDigits n).length) 9 = 9 := Nat.min_eq_right (by omega)
      rw [hmin, drop_assembled]
    · rw [if_neg hk9]
      have hmin : min (20 - (decDigits n).length) 9 = 20 - (decDigits n).length :=
        Nat.min_eq_left (by omega)
      have hsub9 : 20 - (decDigits n).length - 9 = 0 := by omega
      rw [hmin, hsub9, List.drop_zero]
      have hdrop2 : ('0' :: '.' :: (List.replicate (20 - (decDigits n).length) '0' ++
          ((decDigits n).dropWhile (fun d => d == 0)).reverse.map digitChar)).drop
            ((20 - (decDigits n).length) + 2) =
          ((decDigits n).dropWhile (fun d => d == 0)).reverse.map digitChar := by
        simp
      rw [hdrop2]

/-- C6 counterexample: at magnitude 1e-21 (positive, below 1e-4) the
formatter does not return a compressed form at all: the 20-decimal rendering
rounds to zero, the leading-zero match fails, and the default scientific
rendering "1e-21" is returned — it does not even start with the compressed
form's fixed prefix "0.0". -/
theorem claim_C6_counterexample :
    formatSmallPrice ⟨1, 21⟩ "$" = "1e-21" ∧
    (formatSmallPrice ⟨1, 21⟩ "$").data.take 3 ≠ "0.0".data := by
  decide

/-- C6 witness: the amended statement at magnitude 5e-7; the rounded value is
5·10^13, which has 14 digits, so the zero count is 6 and the sole
significant digit is 5. -/
theorem claim_C6_witness :
    roundHalfUpNat 20 ⟨5, 7⟩ ≠ 0 ∧
    formatSmallPrice ⟨5, 7⟩ "$" =
      "0.0" ++ subscriptStr (min (20 - (decDigits (roundHalfUpNat 20 ⟨5, 7⟩)).length) 9) ++
        (⟨((((decDigits (roundHalfUpNat 20 ⟨5, 7⟩)).dropWhile (fun d => d == 0)).reverse.map
            digitChar).drop ((20 - (decDigits (roundHalfUpNat 20 ⟨5, 7⟩)).length) - 9)).take 4⟩ :
          String) :=
  ⟨by decide,
    (claim_C6_formatter ⟨5, 7⟩ "$"
      (DecNum.toRat_zero ▸ (DecNum.blt_iff DecNum.zero ⟨5, 7⟩).mp (by decide))
      (toRat_one_em4 ▸ (DecNum.blt_iff ⟨5, 7⟩ ⟨1, 4⟩).mp (by decide))).2 (by decide)⟩

/-- C7: the small-value formatter is total and deterministic on every input
(in particular every non-negative magnitude): with every fallible primitive
on its path given its explicit failure mode, evaluation always succeeds, and
it returns the value of the pure function `formatSmallPrice` — the same
output string on every invocation of the same input.  No `none` (thrown
exception) is possible. -/
theorem claim_C7_total_deterministic (m : DecNum) (sym : String) :
    formatSmallPriceChecked m sym = some (formatSmallPrice m sym) := by
  rw [formatSmallPriceChecked, formatSmallPrice]
  by_cases h0 : m.beq DecNum.zero
  · rw [if_pos h0, if_pos h0]
  · rw [if_neg h0, if_neg h0]
    by_cases h1 : DecNum.ble ⟨1, 4⟩ m
    · rw [if_pos h1, if_pos h1, decToFixedChecked, if_pos (by norm_num : (4 : Nat) ≤ 100)]
    · rw [if_neg h1, if_neg h1]
      rw [decToFixedChecked, if_pos (by norm_num : (20 : Nat) ≤ 100)]
      rcases hm : leadingZeroMatch (stripTrailingZeros (decToFixed 20 m)) with _ | k
      · simp only [hm]
      · by_cases hk : k > 9
        · simp only [hm, if_pos hk]
        · simp only [hm, if_neg hk]
